import Mathlib

/-!
Shallow embedding of the bee-flyer-application repository.

The repository is a React single-page questionnaire (`src/src/App.jsx`)
plus two serverless email handlers (`src/functions/send-email.js`,
`src/netlify/functions/send-email.js`).  The embedding below translates
the pure logic of those files into Lean: regex validators become
decidable string predicates, the wizard state becomes a structure with
explicit transition functions, localStorage becomes a key-value map,
`JSON.stringify` and `JSON.parse` become an executable printer and
parser over a `Json` inductive, and the canvas compositing used by the
eraser-capable `drawAll` becomes a per-pixel fold with the standard
Porter-Duff meanings of `source-over` and `destination-out`.
-/

namespace BeeFlyer

/-! ### Characters: JS `\d` and `\s`, used by the validators -/

/-- JS regex `\d`: a decimal digit. -/
def isDigitCh (c : Char) : Bool :=
  decide ('0' ≤ c) && decide (c ≤ '9')

/-- JS regex `\s`: the whitespace characters of ECMAScript
(tab..CR, space, NBSP, BOM and the Unicode space separators). -/
def isJsSpace (c : Char) : Bool :=
  (9 ≤ c.toNat && c.toNat ≤ 13) || c.toNat = 32 || c.toNat = 160 ||
  c.toNat = 0x1680 || (0x2000 ≤ c.toNat && c.toNat ≤ 0x200a) ||
  c.toNat = 0x2028 || c.toNat = 0x2029 || c.toNat = 0x202f ||
  c.toNat = 0x205f || c.toNat = 0x3000 || c.toNat = 0xfeff

/-- JS regex `[^\s@]`: legal character of an email local part / domain. -/
def okEmailChar (c : Char) : Bool :=
  !(c = '@' || isJsSpace c)

/-- All splittings of a list into a prefix and the remaining suffix;
used to give the (backtracking) semantics of regex alternation over
concatenation. -/
def splits : List Char → List (List Char × List Char)
  | [] => [([], [])]
  | c :: cs => ([], c :: cs) :: (splits cs).map (fun pr => (c :: pr.1, pr.2))

/-! ### `validateEmail` / `validatePhone`  (App.jsx lines 67-68)

`validateEmail = (email) => /^[^\s@]+@[^\s@]+\.[^\s@]{2,}$/.test(email)`
`validatePhone = (phone) => /^(\+\d{7,15}|0\d{9,11}|\d{7,15})$/.test(phone)` -/

/-- Matches `[^\s@]+\.[^\s@]{2,}$`, the part of the email regex after `@`. -/
def emailTailMatch (cs : List Char) : Bool :=
  (splits cs).any fun pr =>
    !pr.1.isEmpty && pr.1.all okEmailChar &&
    (match pr.2 with
     | '.' :: c => c.all okEmailChar && decide (2 ≤ c.length)
     | _ => false)

/-- `validateEmail` from App.jsx: `/^[^\s@]+@[^\s@]+\.[^\s@]{2,}$/`. -/
def validateEmail (s : String) : Bool :=
  (splits s.data).any fun pr =>
    !pr.1.isEmpty && pr.1.all okEmailChar &&
    (match pr.2 with
     | '@' :: t => emailTailMatch t
     | _ => false)

/-- First alternative of the phone regex: `\+\d{7,15}`. -/
def phoneAltPlus (cs : List Char) : Bool :=
  match cs with
  | [] => false
  | c :: r =>
      decide (c = '+') && r.all isDigitCh && decide (7 ≤ r.length) &&
      decide (r.length ≤ 15)

/-- Second alternative of the phone regex: `0\d{9,11}`. -/
def phoneAltZero (cs : List Char) : Bool :=
  match cs with
  | [] => false
  | c :: r =>
      decide (c = '0') && r.all isDigitCh && decide (9 ≤ r.length) &&
      decide (r.length ≤ 11)

/-- Third alternative of the phone regex: `\d{7,15}`. -/
def phoneAltPlain (cs : List Char) : Bool :=
  cs.all isDigitCh && decide (7 ≤ cs.length) && decide (cs.length ≤ 15)

/-- `validatePhone` from App.jsx: `/^(\+\d{7,15}|0\d{9,11}|\d{7,15})$/`. -/
def validatePhone (s : String) : Bool :=
  phoneAltPlus s.data || phoneAltZero s.data || phoneAltPlain s.data

/-- The phone language as the spec words it: 7 to 15 digits with an
optional leading `+`, or a domestic pattern of 10 to 13 digits with a
leading 0.  Stated from the spec's words, for comparison with
`validatePhone`. -/
def specPhone (s : String) : Bool :=
  (match s.data with
   | [] => false
   | c :: r =>
       if c = '+' then
         r.all isDigitCh && decide (7 ≤ r.length) && decide (r.length ≤ 15)
       else
         (c :: r).all isDigitCh && decide (7 ≤ (c :: r).length) &&
         decide ((c :: r).length ≤ 15)) ||
  (match s.data with
   | [] => false
   | c :: r =>
       decide (c = '0') && (c :: r).all isDigitCh &&
       decide (10 ≤ (c :: r).length) && decide ((c :: r).length ≤ 13))

/-- JS `String.prototype.trim`: drop leading and trailing whitespace. -/
def trimJs (s : String) : String :=
  String.mk (((s.data.dropWhile isJsSpace).reverse.dropWhile isJsSpace).reverse)

/-! ### The question configuration (App.jsx lines 6-49)

Only the fields the wizard logic reads are kept: `id`, `type` and
`required` (UI label, placeholder and option texts are display-only).
In JS an absent `required` field reads as `undefined`, which is falsy,
so the `experience` question carries `required := false`. -/

inductive QType where
  | date
  | single
  | multi
  | longtext
deriving DecidableEq

structure Question where
  id : String
  qtype : QType
  options : List String
  required : Bool
deriving DecidableEq

def QUESTIONS : List Question :=
  [ ⟨"dob", .date, [], true⟩,
    ⟨"availability_days", .multi,
      ["Monday", "Tuesday", "Wednesday", "Thursday", "Friday", "Saturday",
       "Sunday"], true⟩,
    ⟨"walk10mi", .single, ["Yes", "No"], true⟩,
    ⟨"weather_ok", .single, ["Yes", "No"], true⟩,
    ⟨"smartphone", .single, ["Yes", "No"], true⟩,
    ⟨"experience", .longtext, [], false⟩,
    ⟨"nojunk", .longtext, [], true⟩ ]

/-! ### Wizard data model (App.jsx lines 298-408) -/

/-- A captured point, in device-pixel coordinates. -/
structure Pt where
  x : Int
  y : Int
deriving DecidableEq

structure Contact where
  name : String
  phone : String
  email : String
deriving DecidableEq

/-- A stored answer: the JS value under `answers[qid]` is either a
string (single / longtext / date answers) or an array of strings
(multi answers); an unanswered question is `undefined`, modelled by an
absent map entry. -/
inductive Ans where
  | str (v : String)
  | arr (l : List String)
deriving DecidableEq

/-- A sketch record as persisted and submitted:
`{ imageUrl, paths, strokeWidth, png }` (App.jsx lines 305-310). -/
structure MapRec where
  imageUrl : String
  paths : List (List Pt)
  strokeWidth : Nat
  png : String
deriving DecidableEq

structure AppState where
  step : Int
  contact : Contact
  answers : String → Option Ans
  mapA : MapRec
  mapB : MapRec
  submitted : Bool

def totalSteps : Nat := 1 + QUESTIONS.length + 2 + 1

/-- `goNext`'s step update (App.jsx line 374):
`setStep(s => Math.min(totalSteps - 1, s + 1))`. -/
def goNextStep (s : Int) : Int := min ((totalSteps : Int) - 1) (s + 1)

/-- `goBack`'s step update (App.jsx line 375):
`setStep(s => Math.max(0, s - 1))`. -/
def goBackStep (s : Int) : Int := max 0 (s - 1)

inductive WizOp where
  | advance
  | retreat

/-- Run a sequence of advance / retreat step updates. -/
def runWiz (ops : List WizOp) (s : Int) : Int :=
  ops.foldl (fun st op => match op with
    | .advance => goNextStep st
    | .retreat => goBackStep st) s

/-- `canContinue` (App.jsx lines 343-358). -/
def canContinue (st : AppState) : Bool :=
  if st.submitted then false
  else if st.step = 0 then
    decide (1 < (trimJs st.contact.name).length) &&
    validatePhone (trimJs st.contact.phone) &&
    validateEmail (trimJs st.contact.email)
  else if 0 < st.step && st.step ≤ (QUESTIONS.length : Int) then
    match QUESTIONS.get? (st.step - 1).toNat with
    | none => true
    | some q =>
        if !q.required then true
        else
          match st.answers q.id with
          | none => false
          | some a =>
              if q.qtype = .multi then
                match a with
                | .arr l => !l.isEmpty
                | .str _ => false
              else
                match a with
                | .str v => !(v = "")
                | .arr _ => true
  else true

/-- First half of `captureMapPNGIfNeeded` (App.jsx lines 364-367):
`if (atMap1) ... setMapA(prev => ({...prev, png: ...}))`. -/
def captureMapA (pngA : String) (st : AppState) : AppState :=
  if st.step = (QUESTIONS.length : Int) + 1 then
    { st with mapA := { st.mapA with png := pngA } }
  else st

/-- Second half of `captureMapPNGIfNeeded` (App.jsx lines 368-371). -/
def captureMapB (pngB : String) (st : AppState) : AppState :=
  if st.step = (QUESTIONS.length : Int) + 2 then
    { st with mapB := { st.mapB with png := pngB } }
  else st

/-- `captureMapPNGIfNeeded` (App.jsx lines 363-372): when at a map
step, snapshot that canvas into the map record's `png` field.  The
canvas raster contents are inputs (`pngA`, `pngB`). -/
def captureMapPNGIfNeeded (pngA pngB : String) (st : AppState) : AppState :=
  captureMapB pngB (captureMapA pngA st)

/-- The submission payload (App.jsx lines 390-396). -/
structure Payload where
  subject : String
  contact : Contact
  answers : String → Option Ans
  mapA : MapRec
  mapB : MapRec

def buildPayload (st : AppState) : Payload :=
  { subject :=
      "Bee Flyer Application - " ++
        (if st.contact.name = "" then "Unknown" else st.contact.name),
    contact := st.contact,
    answers := st.answers,
    mapA := st.mapA,
    mapB := st.mapB }

/-- `res.ok`: the fetch response outcome.  `none` models a thrown
network error, `some code` an HTTP response with that status. -/
def respOk (resp : Option Int) : Bool :=
  match resp with
  | none => false
  | some code => decide (200 ≤ code) && decide (code ≤ 299)

/-- `submitEmail` (App.jsx lines 388-408): capture the map PNGs if at a
map step, build the payload from the resulting state, POST it; a 2xx
response sets `submitted`, any failure (thrown fetch or non-ok
response) lands in the `catch` and leaves the state as it was.
Returns the new state together with the payload that was sent. -/
def submitEmail (pngA pngB : String) (resp : Option Int) (st : AppState) :
    AppState × Payload :=
  let st1 := captureMapPNGIfNeeded pngA pngB st
  let p := buildPayload st1
  if respOk resp then ({ st1 with submitted := true }, p) else (st1, p)

/-- The user events whose handlers the App renders while the wizard is
active: contact field edits, answer selection, sketch-state changes
pushed up by a `MapSketch`, and the navigation buttons. -/
inductive Ev where
  | setName (v : String)
  | setPhone (v : String)
  | setEmail (v : String)
  | answer (qid : String) (v : Ans)
  | mapAChange (m : MapRec)
  | mapBChange (m : MapRec)
  | next (pngA pngB : String)
  | back (pngA pngB : String)

/-- One user event against the App.  When `submitted` is true the App
returns the thank-you screen early (App.jsx lines 410-422), so none of
these handlers is mounted and the state cannot change. -/
def appHandle (e : Ev) (st : AppState) : AppState :=
  if st.submitted then st
  else
    match e with
    | .setName v => { st with contact := { st.contact with name := v } }
    | .setPhone v => { st with contact := { st.contact with phone := v } }
    | .setEmail v => { st with contact := { st.contact with email := v } }
    | .answer qid v =>
        { st with answers := fun k => if k = qid then some v else st.answers k }
    | .mapAChange m => { st with mapA := m }
    | .mapBChange m => { st with mapB := m }
    | .next pngA pngB =>
        let st1 := captureMapPNGIfNeeded pngA pngB st
        { st1 with step := goNextStep st1.step }
    | .back pngA pngB =>
        let st1 := captureMapPNGIfNeeded pngA pngB st
        { st1 with step := goBackStep st1.step }

/-! ### Stroke capture (App.jsx lines 141-166, the pen-only MapSketch)

`start` unconditionally begins a fresh one-point in-progress stroke;
`move` appends to it unless none is in progress; `end` pushes a
non-empty in-progress stroke onto `paths` and clears it. -/

structure Sketch where
  paths : List (List Pt)
  current : List Pt
deriving DecidableEq

/-- `start` (App.jsx line 151): `setCurrent([getPoint(e)])`. -/
def start (p : Pt) (s : Sketch) : Sketch :=
  { s with current := [p] }

/-- `move` (App.jsx lines 152-156): no-op when `current` is empty,
otherwise `setCurrent(c => [...c, getPoint(e)])`. -/
def move (p : Pt) (s : Sketch) : Sketch :=
  if s.current.isEmpty then s else { s with current := s.current ++ [p] }

/-- `end` (App.jsx lines 157-163): when `current` is non-empty,
`setPaths(p => [...p, current]); setCurrent([])`. -/
def endStroke (s : Sketch) : Sketch :=
  if s.current.isEmpty then s
  else { paths := s.paths ++ [s.current], current := [] }

/-- `undo` (App.jsx line 165): `setPaths(p => p.slice(0, -1))`. -/
def undo (s : Sketch) : Sketch :=
  { s with paths := s.paths.dropLast }

/-- Extend the in-progress stroke with each point of `ps` in order. -/
def extendAll (ps : List Pt) (s : Sketch) : Sketch :=
  ps.foldl (fun st q => move q st) s

/-! ### Eraser-capable rendering (App.jsx lines 907-999, the MapSketch
variant whose strokes carry a tool)

`drawAll` clears the canvas, draws the background image with
`source-over`, then strokes each committed path in commit order: pen
paths with `source-over`, eraser paths with `destination-out`.  The
per-pixel meaning of those two Porter-Duff operators at full source
alpha is: `source-over` replaces a covered pixel with the stroke ink,
`destination-out` makes a covered pixel transparent; uncovered pixels
keep their destination value.  The geometric coverage of a stroked
polyline (line width, round caps and joins) is canvas-internal and is
abstracted as a coverage relation `cov`. -/

inductive Tool where
  | pen
  | eraser
deriving DecidableEq

/-- A committed stroke of the eraser-capable MapSketch:
`{tool, width, points}` (App.jsx line 914). -/
structure StrokeE where
  tool : Tool
  width : Nat
  points : List Pt
deriving DecidableEq

/-- The value of one pixel of the canvas. -/
inductive Pix where
  | transparent
  | background
  | ink
deriving DecidableEq

/-- Stroke one path over a pixel: covered pixels become transparent
under `destination-out` (eraser) and ink under `source-over` (pen);
uncovered pixels are untouched. -/
def applyStroke (cov : StrokeE → Pt → Bool) (q : Pt) (px : Pix)
    (st : StrokeE) : Pix :=
  if cov st q then
    match st.tool with
    | .eraser => .transparent
    | .pen => .ink
  else px

/-- The value `drawAll` leaves at pixel `q`: background first
(where the background image covers, `bg`), then each committed stroke
in commit order. -/
def renderPixel (cov : StrokeE → Pt → Bool) (bg : Pt → Bool)
    (strokes : List StrokeE) (q : Pt) : Pix :=
  strokes.foldl (applyStroke cov q) (if bg q then .background else .transparent)

/-! ### The Cloudflare Pages email handler
(`src/functions/send-email.js`)

`onRequestPost` first rejects when `env.RESEND_API_KEY` is falsy
(absent or empty), without contacting the provider; otherwise it parses
the request body, builds the HTML, and POSTs to the Resend API.  A
non-ok provider response yields a 500 `Resend error` body; any thrown
error (bad request JSON, failed fetch) is caught and yields a 500
`Server error` body.  The model returns the response paired with a
flag recording whether the provider call was attempted. -/

def missingKeyBody : List (String × String) :=
  [("ok", "false"), ("error", "RESEND_API_KEY not set")]

def resendErrorBody (details : String) : List (String × String) :=
  [("ok", "false"), ("error", "Resend error"), ("details", details)]

def serverErrorBody (details : String) : List (String × String) :=
  [("ok", "false"), ("error", "Server error"), ("details", details)]

def okResponseBody : List (String × String) :=
  [("ok", "true")]

/-- A provider-call outcome: `.error e` models `fetch` throwing `e`,
`.ok (status, text)` an HTTP response with its body text. -/
def onRequestPost (apiKey : Option String)
    (reqBody : Except String Unit)
    (provider : Except String (Int × String)) :
    (Nat × List (String × String)) × Bool :=
  if apiKey = none || apiKey = some "" then
    ((500, missingKeyBody), false)
  else
    match reqBody with
    | .error e => ((500, serverErrorBody e), false)
    | .ok _ =>
        match provider with
        | .error e => ((500, serverErrorBody e), true)
        | .ok (status, text) =>
            if 200 ≤ status ∧ status ≤ 299 then ((200, okResponseBody), true)
            else ((500, resendErrorBody text), true)

/-! ### The HTML `escape` helper (`src/functions/send-email.js`
lines 64-67)

`escape(v)` is `String(v ?? '')` followed by three global single-char
replaces, in this order: `&` to `&amp;`, `<` to `&lt;`, `>` to `&gt;`.
`null` and `undefined` inputs are both modelled by `none`. -/

/-- Global single-character replace, i.e. `.replace(/c/g, rep)`. -/
def replaceAllCh (c : Char) (rep : List Char) (s : List Char) : List Char :=
  s.flatMap fun x => if x = c then rep else [x]

/-- `String(v ?? '')`: `null` / `undefined` render as the empty string. -/
def jsStringOf (v : Option String) : String :=
  match v with
  | none => ""
  | some s => s

/-- The Cloudflare handler's `escape`. -/
def escape (v : Option String) : String :=
  String.mk (replaceAllCh '>' "&gt;".data
    (replaceAllCh '<' "&lt;".data
      (replaceAllCh '&' "&amp;".data (jsStringOf v).data)))

/-- One-pass version of the three replaces; proven equal to `escape`
below. -/
def escOne (c : Char) : List Char :=
  if c = '&' then "&amp;".data
  else if c = '<' then "&lt;".data
  else if c = '>' then "&gt;".data
  else [c]

/-- Scanner for the entity property: every `&` in the list starts one
of the entities `&amp;`, `&lt;`, `&gt;`. -/
def ampOk : List Char → Bool
  | [] => true
  | c :: rest =>
      (if c = '&' then
        "amp;".data.isPrefixOf rest || "lt;".data.isPrefixOf rest ||
        "gt;".data.isPrefixOf rest
      else true) && ampOk rest

/-! ### JSON (the persistence serialization)

`saveLS` stores `JSON.stringify(v)` under `"leaflet_q_" + k` and
`loadLS` recovers it with `JSON.parse` inside a try/catch (App.jsx
lines 52-58).  `Json` models the JS values the questionnaire persists
(numbers here are the naturals the app stores: the step index and
stroke widths).  `encode` is the printer `JSON.stringify` uses on
those values — including its string-escaping rules — and `parseValue`
is an executable `JSON.parse` for the same fragment (no insignificant
whitespace, which `stringify` never emits). -/

inductive Json where
  | null
  | bool (b : Bool)
  | num (n : Nat)
  | str (s : String)
  | arr (elems : List Json)
  | obj (fields : List (String × Json))

def lbrace : Char := Char.ofNat 123

def rbrace : Char := Char.ofNat 125

/-- The decimal digit character for `d < 10`. -/
def digitCh (d : Nat) : Char :=
  match d with
  | 0 => '0' | 1 => '1' | 2 => '2' | 3 => '3' | 4 => '4'
  | 5 => '5' | 6 => '6' | 7 => '7' | 8 => '8' | _ => '9'

/-- The lowercase hex digit character for `d < 16`. -/
def hexDigitCh (d : Nat) : Char :=
  match d with
  | 0 => '0' | 1 => '1' | 2 => '2' | 3 => '3' | 4 => '4'
  | 5 => '5' | 6 => '6' | 7 => '7' | 8 => '8' | 9 => '9'
  | 10 => 'a' | 11 => 'b' | 12 => 'c' | 13 => 'd' | 14 => 'e' | _ => 'f'

/-- Decimal digit characters of `n`, most significant first. -/
def natChars (n : Nat) : List Char :=
  if h : n < 10 then [digitCh n]
  else
    have : n / 10 < n := Nat.div_lt_self (by omega) (by omega)
    natChars (n / 10) ++ [digitCh (n % 10)]

/-- `JSON.stringify`'s escaping of one string character: `"` and `\`
get a backslash, the five short control escapes are used where they
exist, any other control character becomes `\u00XX`, and every other
character is emitted literally. -/
def escChar (c : Char) : List Char :=
  if c = '"' then ['\\', '"']
  else if c = '\\' then ['\\', '\\']
  else if c.toNat = 8 then ['\\', 'b']
  else if c.toNat = 9 then ['\\', 't']
  else if c.toNat = 10 then ['\\', 'n']
  else if c.toNat = 12 then ['\\', 'f']
  else if c.toNat = 13 then ['\\', 'r']
  else if c.toNat < 32 then
    ['\\', 'u', '0', '0', hexDigitCh (c.toNat / 16), hexDigitCh (c.toNat % 16)]
  else [c]

/-- The characters of `JSON.stringify` applied to a string value. -/
def encStr (s : String) : List Char :=
  '"' :: s.data.flatMap escChar ++ ['"']

mutual

/-- The characters of `JSON.stringify v`. -/
def encode : Json → List Char
  | .null => "null".data
  | .bool true => "true".data
  | .bool false => "false".data
  | .num n => natChars n
  | .str s => encStr s
  | .arr l => '[' :: encodeItems l ++ [']']
  | .obj fs => lbrace :: encodeFields fs ++ [rbrace]

def encodeItems : List Json → List Char
  | [] => []
  | [v] => encode v
  | v :: rest => encode v ++ ',' :: encodeItems rest

def encodeFields : List (String × Json) → List Char
  | [] => []
  | [kv] => encStr kv.1 ++ ':' :: encode kv.2
  | kv :: rest => encStr kv.1 ++ ':' :: encode kv.2 ++ ',' :: encodeFields rest

end

/-- Value of a hex digit character, `none` for a non-hex character. -/
def parseHex (c : Char) : Option Nat :=
  if isDigitCh c then some (c.toNat - 48)
  else if decide ('a' ≤ c) && decide (c ≤ 'f') then some (c.toNat - 87)
  else if decide ('A' ≤ c) && decide (c ≤ 'F') then some (c.toNat - 70)
  else none

/-- Parse the body of a JSON string (after the opening quote) up to and
through the closing quote, decoding escapes; returns the decoded
characters and the remaining input. -/
def parseStrBody : Nat → List Char → Option (List Char × List Char)
  | 0, _ => none
  | _ + 1, [] => none
  | fuel + 1, c :: rest =>
      if c = '"' then some ([], rest)
      else if c = '\\' then
        match rest with
        | [] => none
        | e :: r2 =>
            if e = '"' then
              (parseStrBody fuel r2).map fun pr => ('"' :: pr.1, pr.2)
            else if e = '\\' then
              (parseStrBody fuel r2).map fun pr => ('\\' :: pr.1, pr.2)
            else if e = '/' then
              (parseStrBody fuel r2).map fun pr => ('/' :: pr.1, pr.2)
            else if e = 'b' then
              (parseStrBody fuel r2).map fun pr => (Char.ofNat 8 :: pr.1, pr.2)
            else if e = 't' then
              (parseStrBody fuel r2).map fun pr => (Char.ofNat 9 :: pr.1, pr.2)
            else if e = 'n' then
              (parseStrBody fuel r2).map fun pr => (Char.ofNat 10 :: pr.1, pr.2)
            else if e = 'f' then
              (parseStrBody fuel r2).map fun pr => (Char.ofNat 12 :: pr.1, pr.2)
            else if e = 'r' then
              (parseStrBody fuel r2).map fun pr => (Char.ofNat 13 :: pr.1, pr.2)
            else if e = 'u' then
              match r2 with
              | h1 :: h2 :: h3 :: h4 :: r3 =>
                  match parseHex h1, parseHex h2, parseHex h3, parseHex h4 with
                  | some a, some b, some cc, some d =>
                      (parseStrBody fuel r3).map fun pr =>
                        (Char.ofNat (((a * 16 + b) * 16 + cc) * 16 + d) :: pr.1,
                         pr.2)
                  | _, _, _, _ => none
              | _ => none
            else none
      else (parseStrBody fuel rest).map fun pr => (c :: pr.1, pr.2)

/-- Value of a non-empty list of decimal digit characters. -/
def digitsVal (ds : List Char) : Nat :=
  ds.foldl (fun a c => a * 10 + (c.toNat - 48)) 0

/-- Parse a natural number literal: the leading digit run. -/
def parseNum (cs : List Char) : Option (Nat × List Char) :=
  let ds := cs.takeWhile isDigitCh
  let rest := cs.dropWhile isDigitCh
  if ds.isEmpty then none else some (digitsVal ds, rest)

mutual

/-- Parse one JSON value at the head of the input. -/
def parseValue : Nat → List Char → Option (Json × List Char)
  | 0, _ => none
  | fuel + 1, cs =>
      if "null".data.isPrefixOf cs then some (.null, cs.drop 4)
      else if "true".data.isPrefixOf cs then some (.bool true, cs.drop 4)
      else if "false".data.isPrefixOf cs then some (.bool false, cs.drop 5)
      else
        match cs with
        | [] => none
        | c :: rest =>
            if c = '"' then
              (parseStrBody fuel rest).map fun pr =>
                (Json.str (String.mk pr.1), pr.2)
            else if c = '[' then
              (parseArrItems fuel rest).map fun pr => (Json.arr pr.1, pr.2)
            else if c = lbrace then
              (parseObjFields fuel rest).map fun pr => (Json.obj pr.1, pr.2)
            else if isDigitCh c then
              (parseNum cs).map fun pr => (Json.num pr.1, pr.2)
            else none

/-- Parse array items up to and through the closing bracket. -/
def parseArrItems : Nat → List Char → Option (List Json × List Char)
  | 0, _ => none
  | _ + 1, [] => none
  | fuel + 1, c :: rest =>
      if c = ']' then some ([], rest)
      else
        match parseValue fuel (c :: rest) with
        | none => none
        | some (v, r) =>
            match r with
            | [] => none
            | c2 :: r2 =>
                if c2 = ']' then some ([v], r2)
                else if c2 = ',' then
                  (parseArrItems fuel r2).map fun pr => (v :: pr.1, pr.2)
                else none

/-- Parse object fields up to and through the closing brace. -/
def parseObjFields : Nat → List Char → Option (List (String × Json) × List Char)
  | 0, _ => none
  | _ + 1, [] => none
  | fuel + 1, c :: rest =>
      if c = rbrace then some ([], rest)
      else if c = '"' then
        match parseStrBody fuel rest with
        | none => none
        | some (kcs, r) =>
            match r with
            | [] => none
            | c1 :: r2 =>
                if c1 = ':' then
                  match parseValue fuel r2 with
                  | none => none
                  | some (v, r3) =>
                      match r3 with
                      | [] => none
                      | c2 :: r4 =>
                          if c2 = ',' then
                            (parseObjFields fuel r4).map fun pr =>
                              ((String.mk kcs, v) :: pr.1, pr.2)
                          else if c2 = rbrace then
                            some ([(String.mk kcs, v)], r4)
                          else none
                else none
      else none

end

/-- `JSON.parse`, requiring the whole input to be consumed. -/
def parseJson (s : String) : Option Json :=
  match parseValue (s.data.length + 1) s.data with
  | some (v, []) => some v
  | _ => none

/-! ### localStorage persistence (App.jsx lines 52-58) -/

def lsKey (k : String) : String := "leaflet_q_" ++ k

/-- `saveLS`: `localStorage.setItem(lsKey(k), JSON.stringify(v))`. -/
def saveLS (store : String → Option String) (k : String) (v : Json) :
    String → Option String :=
  fun key => if key = lsKey k then some (String.mk (encode v)) else store key

/-- `JSON.parse` as JS sees it: a syntax error is a thrown exception. -/
def jsonParseExc (raw : String) : Except String Json :=
  match parseJson raw with
  | some v => .ok v
  | none => .error "SyntaxError"

/-- The body of `loadLS`'s `try` block:
`const raw = localStorage.getItem(lsKey(k)); return raw ? JSON.parse(raw) : fallback;`.
`getItem` of an absent key returns `null` (falsy); the empty string is
also falsy. -/
def loadLSBody (store : String → Option String) (k : String) (fb : Json) :
    Except String Json :=
  match store (lsKey k) with
  | none => .ok fb
  | some raw => if raw = "" then .ok fb else jsonParseExc raw

/-- `loadLS`: the `try` body with `catch { return fallback; }`. -/
def loadLS (store : String → Option String) (k : String) (fb : Json) : Json :=
  match loadLSBody store k fb with
  | .ok v => v
  | .error _ => fb

/-- The contact record as the JSON value the app persists under
`"contact"`. -/
def contactJson (c : Contact) : Json :=
  .obj [("name", .str c.name), ("phone", .str c.phone), ("email", .str c.email)]

/-- Initial `mapA` default (App.jsx lines 305-307). -/
def defaultMapA : MapRec :=
  ⟨"/garden-city-map-with-x.png", [], 4, ""⟩

/-- Initial `mapB` default (App.jsx lines 308-310). -/
def defaultMapB : MapRec :=
  ⟨"/creggan-no-x.png", [], 4, ""⟩

/-- A wizard state at the contact step with a valid name and email and
the given phone entry, used to evaluate `canContinue`. -/
def contactState (phone : String) : AppState :=
  { step := 0,
    contact := ⟨"Jane Doe", phone, "jane@example.com"⟩,
    answers := fun _ => none,
    mapA := defaultMapA,
    mapB := defaultMapB,
    submitted := false }

/-- A concrete persisted store: a malformed entry under `step`, a
well-formed entry under `width`, nothing else. -/
def sampleStore : String → Option String := fun key =>
  if key = lsKey "step" then some "nope"
  else if key = lsKey "width" then some "7"
  else none

/-- The head of the list, if any, fails the predicate; the shape of
input that cannot extend a greedy digit run. -/
def headNotP (p : Char → Bool) : List Char → Prop
  | [] => True
  | c :: _ => p c = false

/-- A concrete wizard state at the review step (the step where the
submit button is rendered), not yet submitted. -/
def reviewState : AppState :=
  { step := 10,
    contact := ⟨"Jane Doe", "07123456789", "jane@example.com"⟩,
    answers := fun _ => none,
    mapA := defaultMapA,
    mapB := defaultMapB,
    submitted := false }

/-! ## Theorems -/

lemma totalSteps_eq : totalSteps = 11 := rfl

lemma runWiz_nil (s : Int) : runWiz [] s = s := rfl

lemma runWiz_cons (op : WizOp) (ops : List WizOp) (s : Int) :
    runWiz (op :: ops) s =
      runWiz ops (match op with
        | .advance => goNextStep s
        | .retreat => goBackStep s) := rfl

lemma goNextStep_bounds (s : Int) (h0 : 0 ≤ s)
    (h1 : s ≤ (totalSteps : Int) - 1) :
    0 ≤ goNextStep s ∧ goNextStep s ≤ (totalSteps : Int) - 1 := by
  rw [totalSteps_eq] at h1 ⊢
  unfold goNextStep
  rw [totalSteps_eq]
  constructor <;> [skip; exact min_le_left _ _]
  rcases le_or_lt (s + 1) 10 with h | h
  · rw [min_eq_right (by omega)]; omega
  · rw [min_eq_left (by omega)]; omega

lemma goBackStep_bounds (s : Int) (h0 : 0 ≤ s)
    (h1 : s ≤ (totalSteps : Int) - 1) :
    0 ≤ goBackStep s ∧ goBackStep s ≤ (totalSteps : Int) - 1 := by
  rw [totalSteps_eq] at h1 ⊢
  unfold goBackStep
  constructor <;> [exact le_max_left _ _; skip]
  rcases le_or_lt (s - 1) 0 with h | h
  · rw [max_eq_left (by omega)]; omega
  · rw [max_eq_right (by omega)]; omega

/-- C1.  Starting from any step index in `[0, totalSteps-1]`
(`totalSteps = 1 + questionCount + 2 + 1`), any sequence of `goNext` /
`goBack` step updates keeps the index in `[0, totalSteps-1]`, and the
updates saturate: advancing at the last step stays at the last step,
retreating at step 0 stays at 0. -/
theorem wizard_step_always_in_bounds (ops : List WizOp) (s : Int)
    (h0 : 0 ≤ s) (h1 : s ≤ (totalSteps : Int) - 1) :
    (0 ≤ runWiz ops s ∧ runWiz ops s ≤ (totalSteps : Int) - 1) ∧
    goNextStep ((totalSteps : Int) - 1) = (totalSteps : Int) - 1 ∧
    goBackStep 0 = 0 := by
  refine ⟨?_, by rw [totalSteps_eq]; rfl, rfl⟩
  induction ops generalizing s with
  | nil => exact runWiz_nil s ▸ ⟨h0, h1⟩
  | cons op ops ih =>
      rw [runWiz_cons]
      cases op
      · exact ih _ (goNextStep_bounds s h0 h1).1 (goNextStep_bounds s h0 h1).2
      · exact ih _ (goBackStep_bounds s h0 h1).1 (goBackStep_bounds s h0 h1).2

/-- C1 witness: a concrete run (two advances from step 9) stays in
bounds. -/
theorem wizard_step_always_in_bounds_witness :
    (0 ≤ runWiz [.advance, .advance] 9 ∧
     runWiz [.advance, .advance] 9 ≤ (totalSteps : Int) - 1) ∧
    goNextStep ((totalSteps : Int) - 1) = (totalSteps : Int) - 1 ∧
    goBackStep 0 = 0 :=
  wizard_step_always_in_bounds [.advance, .advance] 9 (by decide) (by decide)

/-- C4 counterexample: a single-point gesture (begin immediately
followed by release, no extend) is NOT discarded — from the empty
sketch it commits the one-point stroke, so the committed list changes
from `[]` to `[[(1,2)]]`. -/
theorem single_point_stroke_is_committed :
    (endStroke (start ⟨1, 2⟩ ⟨[], []⟩)).paths = [[⟨1, 2⟩]] ∧
    (endStroke (start ⟨1, 2⟩ ⟨[], []⟩)).paths ≠ (Sketch.mk [] []).paths := by
  refine ⟨rfl, ?_⟩
  intro h
  rw [show (endStroke (start ⟨1, 2⟩ ⟨[], []⟩)).paths = [[⟨1, 2⟩]] from rfl] at h
  simp at h

lemma extendAll_of_ne_nil (ps : List Pt) (s : Sketch) (h : s.current ≠ []) :
    extendAll ps s = { paths := s.paths, current := s.current ++ ps } := by
  induction ps generalizing s with
  | nil => cases s; simp [extendAll]
  | cons q qs ih =>
      have hmv : move q s = { paths := s.paths, current := s.current ++ [q] } := by
        unfold move
        rw [if_neg (by simpa [List.isEmpty_iff] using h)]
      have step : extendAll (q :: qs) s = extendAll qs (move q s) := rfl
      rw [step, hmv, ih _ (by simp)]
      simp

/-- C4 amended.  `commit` after `begin` + `extend`×n appends exactly
one stroke, whose points are the begin point followed by the extend
points in capture order, and clears the in-progress state — for every
n ≥ 0, so a single-point stroke (n = 0) is committed too, not
discarded. -/
theorem commit_appends_one_stroke_in_order (s : Sketch) (p : Pt)
    (ps : List Pt) :
    (endStroke (extendAll ps (start p s))).paths = s.paths ++ [p :: ps] ∧
    (endStroke (extendAll ps (start p s))).current = [] := by
  have hst : start p s = { paths := s.paths, current := [p] } := rfl
  rw [hst, extendAll_of_ne_nil ps _ (by simp)]
  unfold endStroke
  simp

/-- C5 counterexample: with a gesture already in progress (in-progress
stroke `[(0,0)]`), a further begin at `(3,4)` is not ignored — it
replaces the in-progress stroke, changing the sketch state. -/
theorem begin_during_gesture_not_ignored :
    start ⟨3, 4⟩ ⟨[], [⟨0, 0⟩]⟩ ≠ (⟨[], [⟨0, 0⟩]⟩ : Sketch) ∧
    (start ⟨3, 4⟩ ⟨[], [⟨0, 0⟩]⟩).current = [⟨3, 4⟩] := by
  constructor
  · intro h
    have := congrArg Sketch.current h
    simp [start] at this
  · rfl

/-- C5 amended.  A further begin while a gesture is in progress
replaces the in-progress stroke with a fresh single-point stroke: the
previously captured in-progress points are discarded without being
committed, and the committed list is unchanged. -/
theorem begin_replaces_in_progress_stroke (p : Pt) (s : Sketch) :
    (start p s).paths = s.paths ∧ (start p s).current = [p] :=
  ⟨rfl, rfl⟩

lemma foldl_applyStroke_nocover (cov : StrokeE → Pt → Bool) (q : Pt)
    (l : List StrokeE) (h : ∀ st ∈ l, cov st q = false) (px : Pix) :
    l.foldl (applyStroke cov q) px = px := by
  induction l generalizing px with
  | nil => rfl
  | cons st l ih =>
      have hst : applyStroke cov q px st = px := by
        unfold applyStroke
        rw [if_neg (by simp [h st (by simp)])]
      rw [List.foldl_cons, hst]
      exact ih (fun u hu => h u (by simp [hu])) px

/-- The pixel left by `drawAll` is decided by the last committed stroke
covering it. -/
lemma renderPixel_last_cover (cov : StrokeE → Pt → Bool) (bg : Pt → Bool)
    (q : Pt) (l1 : List StrokeE) (st : StrokeE) (l2 : List StrokeE)
    (hc : cov st q = true) (h2 : ∀ u ∈ l2, cov u q = false) :
    renderPixel cov bg (l1 ++ st :: l2) q =
      (match st.tool with
       | .eraser => Pix.transparent
       | .pen => Pix.ink) := by
  unfold renderPixel
  rw [List.foldl_append, List.foldl_cons]
  rw [foldl_applyStroke_nocover cov q l2 h2]
  unfold applyStroke
  rw [if_pos hc]

/-- C6.  In the eraser-capable `drawAll`, compositing is
order-dependent: an eraser stroke covering a pixel, with no later
stroke covering it, leaves that pixel transparent (clearing the
background and every stroke drawn before it); while a pen stroke
committed after an eraser stroke is unaffected by it — the pixel it
covers is ink, exactly as it would render with that eraser stroke
removed. -/
theorem eraser_composites_as_clearing (cov : StrokeE → Pt → Bool)
    (bg : Pt → Bool) (q : Pt) :
    (∀ (pre : List StrokeE) (e : StrokeE) (post : List StrokeE),
       e.tool = .eraser → cov e q = true → (∀ u ∈ post, cov u q = false) →
       renderPixel cov bg (pre ++ e :: post) q = .transparent) ∧
    (∀ (pre : List StrokeE) (e : StrokeE) (mid : List StrokeE) (p : StrokeE)
       (post : List StrokeE),
       e.tool = .eraser → p.tool = .pen → cov p q = true →
       (∀ u ∈ post, cov u q = false) →
       renderPixel cov bg (pre ++ e :: mid ++ p :: post) q = .ink ∧
       renderPixel cov bg (pre ++ e :: mid ++ p :: post) q =
         renderPixel cov bg (pre ++ mid ++ p :: post) q) := by
  constructor
  · intro pre e post he hc h2
    rw [renderPixel_last_cover cov bg q pre e post hc h2, he]
  · intro pre e mid p post he hp hc h2
    have hsplit : pre ++ e :: mid ++ p :: post = (pre ++ e :: mid) ++ p :: post := by
      simp
    have hsplit2 : pre ++ mid ++ p :: post = (pre ++ mid) ++ p :: post := by
      simp
    rw [hsplit, hsplit2,
      renderPixel_last_cover cov bg q (pre ++ e :: mid) p post hc h2,
      renderPixel_last_cover cov bg q (pre ++ mid) p post hc h2, hp]
    exact ⟨rfl, rfl⟩

/-- C6 witness: over a background covering every pixel, with coverage
by membership of the pixel in the stroke's point list, the concrete
commit order pen `[(0,0)]`, eraser `[(0,0),(1,1)]`, pen `[(1,1)]`
renders `(0,0)` transparent (the eraser cleared the background and the
earlier pen stroke) and renders `(1,1)` as ink (the later pen stroke
is unaffected by the eraser). -/
theorem eraser_composites_as_clearing_witness :
    renderPixel (fun st q => decide (q ∈ st.points)) (fun _ => true)
        [⟨.pen, 4, [⟨0, 0⟩]⟩, ⟨.eraser, 4, [⟨0, 0⟩, ⟨1, 1⟩]⟩,
         ⟨.pen, 4, [⟨1, 1⟩]⟩] ⟨0, 0⟩ = .transparent ∧
    renderPixel (fun st q => decide (q ∈ st.points)) (fun _ => true)
        [⟨.pen, 4, [⟨0, 0⟩]⟩, ⟨.eraser, 4, [⟨0, 0⟩, ⟨1, 1⟩]⟩,
         ⟨.pen, 4, [⟨1, 1⟩]⟩] ⟨1, 1⟩ = .ink := by
  constructor
  · exact (eraser_composites_as_clearing _ _ _).1
      [⟨.pen, 4, [⟨0, 0⟩]⟩] ⟨.eraser, 4, [⟨0, 0⟩, ⟨1, 1⟩]⟩
      [⟨.pen, 4, [⟨1, 1⟩]⟩] rfl (by decide) (by decide)
  · exact (((eraser_composites_as_clearing _ _ _).2
      [⟨.pen, 4, [⟨0, 0⟩]⟩] ⟨.eraser, 4, [⟨0, 0⟩, ⟨1, 1⟩]⟩ []
      ⟨.pen, 4, [⟨1, 1⟩]⟩ [] rfl rfl (by decide) (by decide)).1)

lemma validatePhone_eq_specPhone (s : String) : validatePhone s = specPhone s := by
  rw [Bool.eq_iff_iff]
  unfold validatePhone specPhone phoneAltPlus phoneAltZero phoneAltPlain
  cases hd : s.data with
  | nil => simp
  | cons c r =>
      by_cases hp : c = '+'
      · subst hp
        have hd1 : isDigitCh '+' = false := by decide
        have hd2 : (('+' : Char) = '0') = False := by simp
        simp [hd1, hd2]
      · by_cases hz : c = '0'
        · subst hz
          have hd1 : isDigitCh '0' = true := by decide
          have hd2 : (('0' : Char) = '+') = False := by simp
          simp [hd1, hd2, hp]
          constructor
          · rintro (⟨⟨hall, h1⟩, h2⟩ | ⟨⟨hall, h1⟩, h2⟩)
            · exact Or.inl ⟨⟨hall, by omega⟩, by omega⟩
            · exact Or.inl ⟨⟨hall, h1⟩, h2⟩
          · rintro (⟨⟨hall, h1⟩, h2⟩ | ⟨⟨hall, h1⟩, h2⟩)
            · exact Or.inr ⟨⟨hall, h1⟩, h2⟩
            · exact Or.inr ⟨⟨hall, by omega⟩, by omega⟩
        · simp [hp, hz]

/-- C3.  `validatePhone` accepts exactly the strings of the claim's
phone language (7-15 digits with an optional leading `+`, or 10-13
digits with a leading 0); and at the contact step with a valid name
and email, `canContinue` is false for phone `"123"` and true for
`"07123456789"` and `"+447123456789"`. -/
theorem phone_validation_as_specified :
    (∀ s, validatePhone s = specPhone s) ∧
    canContinue (contactState "123") = false ∧
    canContinue (contactState "07123456789") = true ∧
    canContinue (contactState "+447123456789") = true :=
  ⟨validatePhone_eq_specPhone, by decide, by decide, by decide⟩

lemma captureMapA_id (pngA : String) (st : AppState)
    (h : st.step ≠ (QUESTIONS.length : Int) + 1) :
    captureMapA pngA st = st := by
  unfold captureMapA
  rw [if_neg h]

lemma captureMapB_id (pngB : String) (st : AppState)
    (h : st.step ≠ (QUESTIONS.length : Int) + 2) :
    captureMapB pngB st = st := by
  unfold captureMapB
  rw [if_neg h]

/-- At the review step neither canvas is mounted, so
`captureMapPNGIfNeeded` changes nothing. -/
lemma capture_id_at_review (pngA pngB : String) (st : AppState)
    (h : st.step = (totalSteps : Int) - 1) :
    captureMapPNGIfNeeded pngA pngB st = st := by
  have hT : (totalSteps : Int) = 11 := by rfl
  have hQ : (QUESTIONS.length : Int) = 7 := by rfl
  rw [hT] at h
  unfold captureMapPNGIfNeeded
  rw [captureMapA_id _ _ (by rw [hQ]; omega),
    captureMapB_id _ _ (by rw [hQ]; omega)]

/-- C2.  A submission attempt from the review step: on any failure
(thrown fetch, modelled by `resp = none`, or a non-2xx status) the
state is left exactly as it was — `submitted` stays false and contact,
answers and both map records are unchanged — and any immediate retry
sends an identical payload; on a 2xx response `submitted` becomes
true, after which `canContinue` is false and no rendered handler can
mutate the state. -/
theorem submit_failure_retry_success_terminal (st : AppState)
    (hsub : st.submitted = false) (hstep : st.step = (totalSteps : Int) - 1) :
    ∀ pngA pngB resp,
    (respOk resp = false →
       (submitEmail pngA pngB resp st).1 = st ∧
       (submitEmail pngA pngB resp st).1.submitted = false ∧
       ∀ pngA2 pngB2 resp2,
         (submitEmail pngA2 pngB2 resp2 (submitEmail pngA pngB resp st).1).2 =
           (submitEmail pngA pngB resp st).2) ∧
    (respOk resp = true →
       (submitEmail pngA pngB resp st).1.submitted = true ∧
       canContinue (submitEmail pngA pngB resp st).1 = false ∧
       ∀ e, appHandle e (submitEmail pngA pngB resp st).1 =
         (submitEmail pngA pngB resp st).1) := by
  intro pngA pngB resp
  have hcap : ∀ a b : String, captureMapPNGIfNeeded a b st = st :=
    fun a b => capture_id_at_review a b st hstep
  constructor
  · intro hfail
    have h1 : (submitEmail pngA pngB resp st).1 = st := by
      unfold submitEmail
      rw [hcap, hfail]
      simp
    refine ⟨h1, by rw [h1]; exact hsub, ?_⟩
    intro pngA2 pngB2 resp2
    rw [h1]
    unfold submitEmail
    rw [hcap, hcap, hfail]
    cases hr : respOk resp2 <;> simp
  · intro hok
    have h1 : (submitEmail pngA pngB resp st).1 = { st with submitted := true } := by
      unfold submitEmail
      rw [hcap, hok]
      simp
    rw [h1]
    refine ⟨rfl, ?_, ?_⟩
    · unfold canContinue
      simp
    · intro e
      unfold appHandle
      simp

/-- C2 witness: from the concrete review state, a 500 response leaves
the state unchanged, and a 200 response marks it submitted, blocks
`canContinue`, and makes a contact edit a no-op. -/
theorem submit_failure_retry_success_terminal_witness :
    (submitEmail "pA" "pB" (some 500) reviewState).1 = reviewState ∧
    (submitEmail "pA" "pB" (some 200) reviewState).1.submitted = true ∧
    canContinue (submitEmail "pA" "pB" (some 200) reviewState).1 = false ∧
    appHandle (.setName "X") (submitEmail "pA" "pB" (some 200) reviewState).1 =
      (submitEmail "pA" "pB" (some 200) reviewState).1 :=
  ⟨((submit_failure_retry_success_terminal reviewState rfl (by decide)
      "pA" "pB" (some 500)).1 (by decide)).1,
   ((submit_failure_retry_success_terminal reviewState rfl (by decide)
      "pA" "pB" (some 200)).2 (by decide)).1,
   ((submit_failure_retry_success_terminal reviewState rfl (by decide)
      "pA" "pB" (some 200)).2 (by decide)).2.1,
   ((submit_failure_retry_success_terminal reviewState rfl (by decide)
      "pA" "pB" (some 200)).2 (by decide)).2.2 (.setName "X")⟩

/-- C9.  With the provider credential absent (or empty, equally falsy),
the Cloudflare handler returns status 500 with the body naming the
missing configuration and never attempts the provider call; with a
credential present, a parsed request and a non-2xx provider response
yield the 500 `Resend error` body, which is distinct from the
missing-configuration body. -/
theorem missing_key_500_distinct_from_provider_error :
    (∀ (reqBody : Except String Unit) (provider : Except String (Int × String)),
       onRequestPost none reqBody provider = ((500, missingKeyBody), false) ∧
       onRequestPost (some "") reqBody provider =
         ((500, missingKeyBody), false)) ∧
    (∀ key : String, key ≠ "" → ∀ (status : Int) (text : String),
       ¬(200 ≤ status ∧ status ≤ 299) →
       onRequestPost (some key) (.ok ()) (.ok (status, text)) =
         ((500, resendErrorBody text), true)) ∧
    (∀ text, resendErrorBody text ≠ missingKeyBody) := by
  refine ⟨?_, ?_, ?_⟩
  · intro reqBody provider
    constructor <;> simp [onRequestPost]
  · intro key hkey status text hst
    simp [onRequestPost, hkey, hst]
  · intro text h
    simp [resendErrorBody, missingKeyBody] at h

/-- C9 witness: concrete runs — an absent key yields the 500
missing-configuration response without a provider call, and a present
key with a 422 provider response yields the distinct 500 provider
error. -/
theorem missing_key_500_distinct_from_provider_error_witness :
    onRequestPost none (.ok ()) (.ok (500, "err")) =
      ((500, missingKeyBody), false) ∧
    onRequestPost (some "k1") (.ok ()) (.ok (422, "invalid")) =
      ((500, resendErrorBody "invalid"), true) ∧
    resendErrorBody "invalid" ≠ missingKeyBody :=
  ⟨(missing_key_500_distinct_from_provider_error.1 (.ok ()) (.ok (500, "err"))).1,
   missing_key_500_distinct_from_provider_error.2.1 "k1" (by decide) 422
     "invalid" (by decide),
   missing_key_500_distinct_from_provider_error.2.2 "invalid"⟩

lemma replaceAllCh_append (c : Char) (rep : List Char) (l1 l2 : List Char) :
    replaceAllCh c rep (l1 ++ l2) =
      replaceAllCh c rep l1 ++ replaceAllCh c rep l2 := by
  unfold replaceAllCh
  simp

lemma onePass_lists (cs : List Char) :
    replaceAllCh '>' "&gt;".data
      (replaceAllCh '<' "&lt;".data (replaceAllCh '&' "&amp;".data cs)) =
    cs.flatMap escOne := by
  induction cs with
  | nil => rfl
  | cons c cs ih =>
      rw [show replaceAllCh '&' "&amp;".data (c :: cs) =
        (if c = '&' then "&amp;".data else [c]) ++
          replaceAllCh '&' "&amp;".data cs from by
          unfold replaceAllCh; simp]
      rw [replaceAllCh_append, replaceAllCh_append]
      rw [show (c :: cs).flatMap escOne = escOne c ++ cs.flatMap escOne from by
        simp]
      rw [ih]
      congr 1
      by_cases h1 : c = '&'
      · subst h1; simp [escOne]; decide
      · by_cases h2 : c = '<'
        · subst h2; simp [escOne]; decide
        · by_cases h3 : c = '>'
          · subst h3; simp [escOne]; decide
          · simp [escOne, h1, h2, h3, replaceAllCh]

lemma escape_eq_onePass (v : Option String) :
    (escape v).data = (jsStringOf v).data.flatMap escOne := by
  unfold escape
  exact onePass_lists _

lemma no_angle_onePass (cs : List Char) :
    '<' ∉ cs.flatMap escOne ∧ '>' ∉ cs.flatMap escOne := by
  induction cs with
  | nil => simp
  | cons c cs ih =>
      rw [show (c :: cs).flatMap escOne = escOne c ++ cs.flatMap escOne from by
        simp]
      simp only [List.mem_append]
      constructor
      · rintro (h | h)
        · unfold escOne at h
          by_cases h1 : c = '&'
          · subst h1; simp at h
          · by_cases h2 : c = '<'
            · subst h2; simp [h1] at h
            · by_cases h3 : c = '>'
              · subst h3; simp [h1, h2] at h
              · simp [h1, h2, h3] at h; exact h2 h.symm
        · exact ih.1 h
      · rintro (h | h)
        · unfold escOne at h
          by_cases h1 : c = '&'
          · subst h1; simp at h
          · by_cases h2 : c = '<'
            · subst h2; simp [h1] at h
            · by_cases h3 : c = '>'
              · subst h3; simp [h1, h2] at h
              · simp [h1, h2, h3] at h; exact h3 h.symm
        · exact ih.2 h

lemma ampOk_onePass (cs : List Char) : ampOk (cs.flatMap escOne) = true := by
  induction cs with
  | nil => rfl
  | cons c cs ih =>
      rw [show (c :: cs).flatMap escOne = escOne c ++ cs.flatMap escOne from by
        simp]
      by_cases h1 : c = '&'
      · subst h1
        show ampOk ("&amp;".data ++ cs.flatMap escOne) = true
        simp [ampOk, List.isPrefixOf_iff_prefix]
        exact ih
      · by_cases h2 : c = '<'
        · subst h2
          show ampOk ("&lt;".data ++ cs.flatMap escOne) = true
          simp [ampOk, List.isPrefixOf_iff_prefix]
          exact ih
        · by_cases h3 : c = '>'
          · subst h3
            show ampOk ("&gt;".data ++ cs.flatMap escOne) = true
            simp [ampOk, List.isPrefixOf_iff_prefix]
            exact ih
          · rw [show escOne c = [c] from by simp [escOne, h1, h2, h3]]
            simp [ampOk, h1]
            exact ih

/-- C10.  For every input (with `null` / `undefined` rendering as the
empty string), the Cloudflare handler's `escape` emits no `<` and no
`>`, and every `&` in its output starts one of the entities it
introduced (`&amp;`, `&lt;`, `&gt;`): interpolated values cannot
inject HTML tags. -/
theorem escape_output_injects_no_html (v : Option String) :
    '<' ∉ (escape v).data ∧ '>' ∉ (escape v).data ∧
    ampOk (escape v).data = true ∧ escape none = "" := by
  rw [escape_eq_onePass]
  exact ⟨(no_angle_onePass _).1, (no_angle_onePass _).2, ampOk_onePass _, rfl⟩

lemma digitCh_isDigit (d : Nat) (h : d < 10) : isDigitCh (digitCh d) = true := by
  interval_cases d <;> decide

lemma digitCh_val (d : Nat) (h : d < 10) : (digitCh d).toNat = 48 + d := by
  interval_cases d <;> decide

lemma natChars_ne_nil (n : Nat) : natChars n ≠ [] := by
  unfold natChars
  split <;> simp

lemma natChars_all_digits (n : Nat) : ∀ c ∈ natChars n, isDigitCh c = true := by
  induction n using Nat.strong_induction_on with
  | _ n ih =>
      unfold natChars
      split
      · intro c hc
        simp at hc
        subst hc
        exact digitCh_isDigit n (by omega)
      · intro c hc
        rw [List.mem_append] at hc
        rcases hc with hc | hc
        · exact ih (n / 10) (Nat.div_lt_self (by omega) (by omega)) c hc
        · simp at hc
          subst hc
          exact digitCh_isDigit (n % 10) (Nat.mod_lt _ (by omega))

lemma digitsVal_append_singleton (xs : List Char) (c : Char) :
    digitsVal (xs ++ [c]) = digitsVal xs * 10 + (c.toNat - 48) := by
  unfold digitsVal
  rw [List.foldl_append]
  rfl

lemma digitsVal_natChars (n : Nat) : digitsVal (natChars n) = n := by
  induction n using Nat.strong_induction_on with
  | _ n ih =>
      unfold natChars
      split
      · rename_i h
        show digitsVal [digitCh n] = n
        unfold digitsVal
        simp [digitCh_val n h]
      · rename_i h
        rw [digitsVal_append_singleton,
          ih (n / 10) (Nat.div_lt_self (by omega) (by omega)),
          digitCh_val (n % 10) (Nat.mod_lt _ (by omega))]
        omega

lemma takeWhile_append_all (p : Char → Bool) (xs ys : List Char)
    (hxs : ∀ c ∈ xs, p c = true) (hy : headNotP p ys) :
    (xs ++ ys).takeWhile p = xs ∧ (xs ++ ys).dropWhile p = ys := by
  induction xs with
  | nil =>
      simp only [List.nil_append]
      cases ys with
      | nil => simp
      | cons y ys =>
          unfold headNotP at hy
          simp [List.takeWhile_cons, List.dropWhile_cons, hy]
  | cons x xs ih =>
      have hx : p x = true := hxs x (by simp)
      have h2 := ih (fun c hc => hxs c (by simp [hc]))
      simp [List.takeWhile_cons, List.dropWhile_cons, hx, h2.1, h2.2]

lemma parseNum_natChars (n : Nat) (rest : List Char)
    (hy : headNotP isDigitCh rest) :
    parseNum (natChars n ++ rest) = some (n, rest) := by
  unfold parseNum
  have h := takeWhile_append_all isDigitCh (natChars n) rest
    (natChars_all_digits n) hy
  rw [h.1, h.2]
  simp [natChars_ne_nil n, digitsVal_natChars n]

lemma digit_ne (c a : Char) (hc : isDigitCh c = true)
    (ha : isDigitCh a = false) : ¬(c = a) := by
  intro h
  rw [h] at hc
  rw [hc] at ha
  simp at ha

lemma isPrefixOf_cons_ne (a : Char) (l : List Char) (c : Char) (cs : List Char)
    (h : ¬(a = c)) : (a :: l).isPrefixOf (c :: cs) = false := by
  simp [List.isPrefixOf, h]

lemma parseValue_digit_head (c : Char) (cs : List Char) (f : Nat)
    (hc : isDigitCh c = true) :
    parseValue (f + 1) (c :: cs) =
      (parseNum (c :: cs)).map fun pr => (Json.num pr.1, pr.2) := by
  have hn : ¬('n' = c) := fun h => digit_ne c 'n' hc (by decide) h.symm
  have ht : ¬('t' = c) := fun h => digit_ne c 't' hc (by decide) h.symm
  have hf2 : ¬('f' = c) := fun h => digit_ne c 'f' hc (by decide) h.symm
  have hq : ¬(c = '"') := digit_ne c '"' hc (by decide)
  have hb : ¬(c = '[') := digit_ne c '[' hc (by decide)
  have hl : ¬(c = lbrace) := digit_ne c lbrace hc (by decide)
  unfold parseValue
  rw [if_neg (by rw [show ("null".data : List Char) = 'n' :: "ull".data from rfl,
        isPrefixOf_cons_ne _ _ _ _ hn]; simp)]
  rw [if_neg (by rw [show ("true".data : List Char) = 't' :: "rue".data from rfl,
        isPrefixOf_cons_ne _ _ _ _ ht]; simp)]
  rw [if_neg (by rw [show ("false".data : List Char) = 'f' :: "alse".data from rfl,
        isPrefixOf_cons_ne _ _ _ _ hf2]; simp)]
  simp [hq, hb, hl, hc]

lemma parseValue_num (n : Nat) (rest : List Char) (f : Nat)
    (hy : headNotP isDigitCh rest) :
    parseValue (f + 1) (natChars n ++ rest) = some (.num n, rest) := by
  obtain ⟨c, cs', hnc⟩ : ∃ c cs', natChars n = c :: cs' := by
    cases h : natChars n with
    | nil => exact absurd h (natChars_ne_nil n)
    | cons c cs' => exact ⟨c, cs', rfl⟩
  have hcdig : isDigitCh c = true := natChars_all_digits n c (by rw [hnc]; simp)
  have hsplit : natChars n ++ rest = c :: (cs' ++ rest) := by rw [hnc]; simp
  rw [hsplit, parseValue_digit_head c _ f hcdig, ← List.cons_append, ← hnc,
    parseNum_natChars n rest hy]
  rfl

lemma parseHex_hexDigitCh (d : Nat) (h : d < 16) :
    parseHex (hexDigitCh d) = some d := by
  interval_cases d <;> decide

lemma parseStrBody_enc (s : List Char) (rest : List Char) (f : Nat)
    (hf : s.length < f) :
    parseStrBody f (s.flatMap escChar ++ '"' :: rest) = some (s, rest) := by
  induction s generalizing f with
  | nil =>
      cases f with
      | zero => omega
      | succ f2 => simp [parseStrBody]
  | cons c cs ih =>
      cases f with
      | zero => omega
      | succ f2 =>
          have hf2 : cs.length < f2 := by simp at hf; omega
          have hrec := ih f2 hf2
          rw [show (c :: cs).flatMap escChar ++ '"' :: rest =
            escChar c ++ (cs.flatMap escChar ++ '"' :: rest) from by simp]
          rw [escChar]
          by_cases h1 : c = '"'
          · rw [if_pos h1]
            subst h1
            simp [parseStrBody, hrec]
          · rw [if_neg h1]
            by_cases h2 : c = '\\'
            · rw [if_pos h2]
              subst h2
              simp [parseStrBody, hrec]
            · rw [if_neg h2]
              by_cases h3 : c.toNat = 8
              · rw [if_pos h3]
                simp [parseStrBody, hrec]
                rw [← h3, Char.ofNat_toNat]
              · rw [if_neg h3]
                by_cases h4 : c.toNat = 9
                · rw [if_pos h4]
                  simp [parseStrBody, hrec]
                  rw [← h4, Char.ofNat_toNat]
                · rw [if_neg h4]
                  by_cases h5 : c.toNat = 10
                  · rw [if_pos h5]
                    simp [parseStrBody, hrec]
                    rw [← h5, Char.ofNat_toNat]
                  · rw [if_neg h5]
                    by_cases h6 : c.toNat = 12
                    · rw [if_pos h6]
                      simp [parseStrBody, hrec]
                      rw [← h6, Char.ofNat_toNat]
                    · rw [if_neg h6]
                      by_cases h7 : c.toNat = 13
                      · rw [if_pos h7]
                        simp [parseStrBody, hrec]
                        rw [← h7, Char.ofNat_toNat]
                      · rw [if_neg h7]
                        by_cases h8 : c.toNat < 32
                        · rw [if_pos h8]
                          have hq : parseHex (hexDigitCh (c.toNat / 16)) =
                              some (c.toNat / 16) :=
                            parseHex_hexDigitCh _ (by omega)
                          have hr : parseHex (hexDigitCh (c.toNat % 16)) =
                              some (c.toNat % 16) :=
                            parseHex_hexDigitCh _ (by omega)
                          simp [parseStrBody, hrec, hq, hr,
                            show parseHex '0' = some 0 from by decide]
                          rw [show c.toNat / 16 * 16 + c.toNat % 16 = c.toNat
                            from by omega, Char.ofNat_toNat]
                        · rw [if_neg h8]
                          simp [parseStrBody, hrec, h1, h2]

lemma parseValue_quote_head (cs : List Char) (f : Nat) :
    parseValue (f + 1) ('"' :: cs) =
      (parseStrBody f cs).map fun pr => (Json.str (String.mk pr.1), pr.2) := by
  unfold parseValue
  rw [if_neg (by rw [show ("null".data : List Char) = 'n' :: "ull".data from rfl,
        isPrefixOf_cons_ne _ _ _ _ (by decide)]; simp)]
  rw [if_neg (by rw [show ("true".data : List Char) = 't' :: "rue".data from rfl,
        isPrefixOf_cons_ne _ _ _ _ (by decide)]; simp)]
  rw [if_neg (by rw [show ("false".data : List Char) = 'f' :: "alse".data from rfl,
        isPrefixOf_cons_ne _ _ _ _ (by decide)]; simp)]
  simp

lemma parseValue_lbrace_head (cs : List Char) (f : Nat) :
    parseValue (f + 1) (lbrace :: cs) =
      (parseObjFields f cs).map fun pr => (Json.obj pr.1, pr.2) := by
  unfold parseValue
  rw [if_neg (by rw [show ("null".data : List Char) = 'n' :: "ull".data from rfl,
        isPrefixOf_cons_ne _ _ _ _ (by decide)]; simp)]
  rw [if_neg (by rw [show ("true".data : List Char) = 't' :: "rue".data from rfl,
        isPrefixOf_cons_ne _ _ _ _ (by decide)]; simp)]
  rw [if_neg (by rw [show ("false".data : List Char) = 'f' :: "alse".data from rfl,
        isPrefixOf_cons_ne _ _ _ _ (by decide)]; simp)]
  have h1 : ¬(lbrace = '"') := by decide
  have h2 : ¬(lbrace = '[') := by decide
  simp [h1, h2]

lemma parseValue_encStr (s : String) (rest : List Char) (f : Nat)
    (hf : s.data.length < f) :
    parseValue (f + 1) (encStr s ++ rest) = some (.str s, rest) := by
  rw [show encStr s ++ rest = '"' :: (s.data.flatMap escChar ++ '"' :: rest)
    from by unfold encStr; simp]
  rw [parseValue_quote_head, parseStrBody_enc s.data rest f hf]
  rfl

lemma escChar_length_pos (c : Char) : 1 ≤ (escChar c).length := by
  unfold escChar
  split_ifs <;> simp

lemma length_le_flatMap_escChar (l : List Char) :
    l.length ≤ (l.flatMap escChar).length := by
  induction l with
  | nil => simp
  | cons c cs ih =>
      rw [show (c :: cs).flatMap escChar = escChar c ++ cs.flatMap escChar
        from by simp]
      simp only [List.length_append, List.length_cons]
      have := escChar_length_pos c
      omega

lemma encStr_length (s : String) : s.data.length + 2 ≤ (encStr s).length := by
  unfold encStr
  simp only [List.cons_append, List.length_cons, List.length_append,
    List.length_singleton]
  have := length_le_flatMap_escChar s.data
  omega

lemma parseObjFields_enc (fields : List (String × String)) (rest : List Char)
    (f : Nat)
    (hf : (encodeFields (fields.map fun kv => (kv.1, Json.str kv.2))).length + 2
      ≤ f) :
    parseObjFields f
        (encodeFields (fields.map fun kv => (kv.1, Json.str kv.2)) ++
          rbrace :: rest) =
      some (fields.map fun kv => (kv.1, Json.str kv.2), rest) := by
  induction fields generalizing f with
  | nil =>
      cases f with
      | zero => omega
      | succ f2 =>
          simp only [List.map_nil]
          rw [show encodeFields [] = [] from rfl]
          simp [parseObjFields]
  | cons kv tail ih =>
      obtain ⟨k, v⟩ := kv
      have hkb := encStr_length k
      have hvb := encStr_length v
      cases tail with
      | nil =>
          simp only [List.map_cons, List.map_nil] at hf ⊢
          rw [show encodeFields [(k, Json.str v)] = encStr k ++ ':' :: encStr v
            from rfl] at hf ⊢
          simp only [List.map_cons, List.map_nil,
            show encodeFields [(k, Json.str v)] = encStr k ++ ':' :: encStr v
              from rfl, List.length_append, List.length_cons] at hf
          obtain ⟨f3, rfl⟩ : ∃ f3, f = f3 + 2 := ⟨f - 2, by omega⟩
          rw [show (encStr k ++ ':' :: encStr v) ++ rbrace :: rest =
            '"' :: (k.data.flatMap escChar ++
              '"' :: (':' :: (encStr v ++ rbrace :: rest))) from by
            unfold encStr; simp]
          have hK := parseStrBody_enc k.data
            (':' :: (encStr v ++ rbrace :: rest)) (f3 + 1) (by omega)
          have hV := parseValue_encStr v (rbrace :: rest) f3 (by omega)
          simp [parseObjFields, hK, hV, show ¬('"' = rbrace) from by decide,
            show ¬(rbrace = ',') from by decide]
      | cons t ts =>
          simp only [List.map_cons] at hf ⊢
          rw [show encodeFields ((k, Json.str v) :: (t.1, Json.str t.2) ::
              ts.map fun kv => (kv.1, Json.str kv.2)) =
            encStr k ++ ':' :: encStr v ++ ',' ::
              encodeFields ((t.1, Json.str t.2) ::
                ts.map fun kv => (kv.1, Json.str kv.2)) from rfl] at hf ⊢
          simp only [List.length_append, List.length_cons] at hf
          obtain ⟨f3, rfl⟩ : ∃ f3, f = f3 + 2 := ⟨f - 2, by omega⟩
          rw [show (encStr k ++ ':' :: encStr v ++ ',' ::
              encodeFields ((t.1, Json.str t.2) ::
                ts.map fun kv => (kv.1, Json.str kv.2))) ++ rbrace :: rest =
            '"' :: (k.data.flatMap escChar ++
              '"' :: (':' :: (encStr v ++ ',' ::
                (encodeFields ((t.1, Json.str t.2) ::
                  ts.map fun kv => (kv.1, Json.str kv.2)) ++ rbrace :: rest))))
            from by unfold encStr; simp]
          have hK := parseStrBody_enc k.data
            (':' :: (encStr v ++ ',' ::
              (encodeFields ((t.1, Json.str t.2) ::
                ts.map fun kv => (kv.1, Json.str kv.2)) ++ rbrace :: rest)))
            (f3 + 1) (by omega)
          have hV := parseValue_encStr v
            (',' :: (encodeFields ((t.1, Json.str t.2) ::
              ts.map fun kv => (kv.1, Json.str kv.2)) ++ rbrace :: rest))
            f3 (by omega)
          have hIH := ih (f3 + 1) (by simp only [List.map_cons]; omega)
          simp only [List.map_cons] at hIH
          simp [parseObjFields, hK, hV, hIH,
            show ¬('"' = rbrace) from by decide]

lemma parseJson_encode_num (n : Nat) :
    parseJson (String.mk (encode (.num n))) = some (.num n) := by
  unfold parseJson
  rw [show (String.mk (encode (Json.num n))).data = natChars n from rfl]
  obtain ⟨L, hL⟩ : ∃ L, (natChars n).length = L := ⟨_, rfl⟩
  rw [hL]
  rw [show natChars n = natChars n ++ [] from by simp]
  rw [parseValue_num n [] L (by unfold headNotP; trivial)]

lemma parseValue_contactJson (c : Contact) (rest : List Char) (f : Nat)
    (hf : (encodeFields [("name", Json.str c.name), ("phone", Json.str c.phone),
      ("email", Json.str c.email)]).length + 2 ≤ f) :
    parseValue (f + 1) (encode (contactJson c) ++ rest) =
      some (contactJson c, rest) := by
  rw [show encode (contactJson c) ++ rest =
    lbrace :: (encodeFields [("name", Json.str c.name),
      ("phone", Json.str c.phone), ("email", Json.str c.email)] ++
        rbrace :: rest) from by
    rw [show encode (contactJson c) = lbrace :: encodeFields
      [("name", Json.str c.name), ("phone", Json.str c.phone),
       ("email", Json.str c.email)] ++ [rbrace] from rfl]
    simp]
  rw [parseValue_lbrace_head]
  have h := parseObjFields_enc [("name", c.name), ("phone", c.phone),
    ("email", c.email)] rest f (by simpa using hf)
  simp only [List.map_cons, List.map_nil] at h
  rw [h]
  rfl

lemma parseJson_encode_contact (c : Contact) :
    parseJson (String.mk (encode (contactJson c))) = some (contactJson c) := by
  unfold parseJson
  rw [show (String.mk (encode (contactJson c))).data = encode (contactJson c)
    from rfl]
  have hlen : (encode (contactJson c)).length =
      (encodeFields [("name", Json.str c.name), ("phone", Json.str c.phone),
        ("email", Json.str c.email)]).length + 2 := by
    rw [show encode (contactJson c) = lbrace :: encodeFields
      [("name", Json.str c.name), ("phone", Json.str c.phone),
       ("email", Json.str c.email)] ++ [rbrace] from rfl]
    simp
  rw [hlen]
  rw [show encode (contactJson c) = encode (contactJson c) ++ [] from by simp]
  rw [parseValue_contactJson c [] _ (by omega)]

/-- C7.  `loadLS` never propagates an exception: an absent key or a
stored value `JSON.parse` rejects yields the fallback default, and a
well-formed stored value is returned as parsed. -/
theorem loadls_falls_back_on_missing_or_malformed
    (store : String → Option String) (k : String) (fb : Json) :
    (store (lsKey k) = none → loadLS store k fb = fb) ∧
    (∀ raw, store (lsKey k) = some raw → parseJson raw = none →
       loadLS store k fb = fb) ∧
    (∀ raw v, store (lsKey k) = some raw → parseJson raw = some v →
       loadLS store k fb = v) := by
  refine ⟨?_, ?_, ?_⟩
  · intro h
    unfold loadLS loadLSBody
    rw [h]
  · intro raw h hp
    unfold loadLS loadLSBody jsonParseExc
    rw [h]
    by_cases hraw : raw = ""
    · simp [hraw]
    · simp [hraw, hp]
  · intro raw v h hp
    unfold loadLS loadLSBody jsonParseExc
    rw [h]
    by_cases hraw : raw = ""
    · subst hraw
      rw [show parseJson "" = none from rfl] at hp
      exact absurd hp (by simp)
    · simp [hraw, hp]

/-- C8.  Persistence round-trips: for every step index and contact
record, saving both via `saveLS` (each JSON-encoded under its own key)
and reconstructing through `loadLS` from the same storage returns the
identical step and contact values. -/
theorem persisted_step_contact_roundtrip (store : String → Option String)
    (n : Nat) (c : Contact) :
    loadLS (saveLS (saveLS store "step" (.num n)) "contact" (contactJson c))
        "step" (.num 0) = .num n ∧
    loadLS (saveLS (saveLS store "step" (.num n)) "contact" (contactJson c))
        "contact" (contactJson ⟨"", "", ""⟩) = contactJson c := by
  have hne : ¬(lsKey "step" = lsKey "contact") := by decide
  have hstep : ¬(String.mk (encode (Json.num n)) = "") := by
    intro h
    exact natChars_ne_nil n (congrArg String.data h)
  have hcon : ¬(String.mk (encode (contactJson c)) = "") := by
    intro h
    have h2 : encode (contactJson c) = [] := congrArg String.data h
    rw [show encode (contactJson c) = lbrace :: encodeFields
      [("name", Json.str c.name), ("phone", Json.str c.phone),
       ("email", Json.str c.email)] ++ [rbrace] from rfl] at h2
    simp at h2
  constructor
  · unfold loadLS loadLSBody saveLS jsonParseExc
    rw [if_neg hne, if_pos rfl]
    simp [hstep, parseJson_encode_num n]
  · unfold loadLS loadLSBody saveLS jsonParseExc
    rw [if_pos rfl]
    simp [hcon, parseJson_encode_contact c]

/-- C7 witness: against the concrete store, the absent `answers` key
and the malformed `step` entry both load as their defaults, and the
well-formed `width` entry loads as the parsed number 7. -/
theorem loadls_falls_back_on_missing_or_malformed_witness :
    loadLS sampleStore "answers" (Json.obj []) = Json.obj [] ∧
    loadLS sampleStore "step" (Json.num 0) = Json.num 0 ∧
    loadLS sampleStore "width" (Json.num 4) = Json.num 7 :=
  ⟨(loadls_falls_back_on_missing_or_malformed sampleStore "answers"
      (Json.obj [])).1 rfl,
   (loadls_falls_back_on_missing_or_malformed sampleStore "step"
      (Json.num 0)).2.1 "nope" rfl rfl,
   (loadls_falls_back_on_missing_or_malformed sampleStore "width"
      (Json.num 4)).2.2 "7" (Json.num 7) rfl rfl⟩

end BeeFlyer
